import Mathlib

/-!
Shallow embedding of the `deterministic-hash` Rust crate (`src/lib.rs`).

The crate provides `DeterministicHasher<T: Hasher>`, a wrapper around an
arbitrary inner hasher that forwards raw bytes unchanged, re-encodes every
fixed-width integer with `to_le_bytes`, casts `usize` to `u64` before
encoding, and reinterprets every signed integer as the same-width unsigned
integer (Rust `as` casts) before encoding.

Modelling choices:
* Bytes are `Nat` values (< 256 on the actual domain); byte slices are
  `List Nat`.
* The inner hasher (`T : Hasher`) is a `Sink`: a state type `σ` with a
  raw-byte `write` (state transformer) and a pure `finish` (Rust's
  `finish(&self)` takes a shared reference, so it cannot mutate state).
* A simulated architecture byte order `Endian` makes Rust's `to_le_bytes`
  explicit: the native representation of an integer on a little-endian
  machine is its little-endian byte string, on a big-endian machine the
  reverse; `to_le_bytes` is the identity on the former and a byte swap on
  the latter.
* Rust integer casts are embedded arithmetically: `usize as u64` is
  `% 2^64` (zero extension for the observed widths 16/32/64), a signed
  to unsigned cast of bit width `w` is the Euclidean remainder `% 2^w`
  on `Int` (two's-complement reinterpretation).
-/

/-- Simulated native byte order of an architecture. -/
inductive Endian where
  | little
  | big

/-- The little-endian byte string of `n`, exactly `w` bytes (encodes
`n % 256^w`, least significant byte first). -/
def leBytes : Nat → Nat → List Nat
  | 0, _ => []
  | w + 1, n => n % 256 :: leBytes w (n / 256)

/-- The native in-memory byte representation of a `w`-byte integer `n` on an
architecture with byte order `e`. -/
def nativeBytes (e : Endian) (w n : Nat) : List Nat :=
  match e with
  | .little => leBytes w n
  | .big => (leBytes w n).reverse

/-- Rust's `to_le_bytes` on a `w`-byte integer, made architecture-explicit:
on a little-endian machine it returns the native representation unchanged,
on a big-endian machine it byte-swaps the native representation. -/
def to_le_bytes (e : Endian) (w n : Nat) : List Nat :=
  match e with
  | .little => nativeBytes e w n
  | .big => (nativeBytes e w n).reverse

/-- Rust cast of a signed integer to the unsigned integer of bit width `w`
(`i as uN`): two's-complement reinterpretation, i.e. the Euclidean
remainder modulo `2^w`. -/
def asUnsigned (w : Nat) (v : Int) : Nat :=
  (v % ((2 : Int) ^ w)).toNat

/-- The two's-complement bit pattern of a signed value `v` at bit width `w`,
read as an unsigned number: `v` itself when `v` is non-negative, and
`2^w + v` when `v` is negative.  This is the spec's "reinterpret the bit
pattern as unsigned of the same width". -/
def twosComplement (w : Nat) (v : Int) : Nat :=
  if 0 ≤ v then v.toNat else ((2 : Int) ^ w + v).toNat

/-- The inner hash sink (Rust's `T : Hasher` as used by the wrapper): a
state type with a raw-byte `write` and a pure digest `finish`. -/
structure Sink (σ : Type) where
  write : σ → List Nat → σ
  finish : σ → Nat

/-- The free, fully observational sink: its state records the exact list of
`write` calls (each element is the byte slice of one call). -/
def traceSink : Sink (List (List Nat)) where
  write := fun s b => s ++ [b]
  finish := fun _ => 0

namespace DeterministicHasher

variable {σ : Type}

/-- `fn write(&mut self, bytes: &[u8]) { self.0.write(bytes); }` -/
def write (S : Sink σ) (s : σ) (bytes : List Nat) : σ :=
  S.write s bytes

/-- `fn finish(&self) -> u64 { self.0.finish() }` -/
def finish (S : Sink σ) (s : σ) : Nat :=
  S.finish s

/-- `fn write_u8(&mut self, i: u8) { self.write(&i.to_le_bytes()) }` -/
def write_u8 (S : Sink σ) (e : Endian) (s : σ) (i : Nat) : σ :=
  write S s (to_le_bytes e 1 i)

/-- `fn write_u16(&mut self, i: u16) { self.write(&i.to_le_bytes()) }` -/
def write_u16 (S : Sink σ) (e : Endian) (s : σ) (i : Nat) : σ :=
  write S s (to_le_bytes e 2 i)

/-- `fn write_u32(&mut self, i: u32) { self.write(&i.to_le_bytes()) }` -/
def write_u32 (S : Sink σ) (e : Endian) (s : σ) (i : Nat) : σ :=
  write S s (to_le_bytes e 4 i)

/-- `fn write_u64(&mut self, i: u64) { self.write(&i.to_le_bytes()) }` -/
def write_u64 (S : Sink σ) (e : Endian) (s : σ) (i : Nat) : σ :=
  write S s (to_le_bytes e 8 i)

/-- `fn write_u128(&mut self, i: u128) { self.write(&i.to_le_bytes()) }` -/
def write_u128 (S : Sink σ) (e : Endian) (s : σ) (i : Nat) : σ :=
  write S s (to_le_bytes e 16 i)

/-- `fn write_usize(&mut self, i: usize) { self.write(&(i as u64).to_le_bytes()) }`;
the cast `i as u64` is `% 2^64`. -/
def write_usize (S : Sink σ) (e : Endian) (s : σ) (i : Nat) : σ :=
  write S s (to_le_bytes e 8 (i % 2 ^ 64))

/-- `fn write_i8(&mut self, i: i8) { self.write_u8(i as u8) }` -/
def write_i8 (S : Sink σ) (e : Endian) (s : σ) (v : Int) : σ :=
  write_u8 S e s (asUnsigned 8 v)

/-- `fn write_i16(&mut self, i: i16) { self.write_u16(i as u16) }` -/
def write_i16 (S : Sink σ) (e : Endian) (s : σ) (v : Int) : σ :=
  write_u16 S e s (asUnsigned 16 v)

/-- `fn write_i32(&mut self, i: i32) { self.write_u32(i as u32) }` -/
def write_i32 (S : Sink σ) (e : Endian) (s : σ) (v : Int) : σ :=
  write_u32 S e s (asUnsigned 32 v)

/-- `fn write_i64(&mut self, i: i64) { self.write_u64(i as u64) }` -/
def write_i64 (S : Sink σ) (e : Endian) (s : σ) (v : Int) : σ :=
  write_u64 S e s (asUnsigned 64 v)

/-- `fn write_i128(&mut self, i: i128) { self.write_u128(i as u128) }` -/
def write_i128 (S : Sink σ) (e : Endian) (s : σ) (v : Int) : σ :=
  write_u128 S e s (asUnsigned 128 v)

/-- `fn write_isize(&mut self, i: isize) { self.write_usize(i as usize) }`;
on a platform of pointer bit width `W` the cast `i as usize` is the
two's-complement reinterpretation at width `W`. -/
def write_isize (S : Sink σ) (e : Endian) (W : Nat) (s : σ) (v : Int) : σ :=
  write_usize S e s (asUnsigned W v)

/-- The `Hasher` capability that a `DeterministicHasher` wrapping sink `S`
itself exposes to an outer wrapper, which (like the Rust source) only ever
calls the inner hasher's raw `write` and `finish`. -/
def toSink (S : Sink σ) : Sink σ where
  write := write S
  finish := finish S

end DeterministicHasher

/-- One operation of the wrapper's public interface, for reasoning about
call sequences. -/
inductive Op where
  | raw : List Nat → Op
  | u8 : Nat → Op
  | u16 : Nat → Op
  | u32 : Nat → Op
  | u64 : Nat → Op
  | u128 : Nat → Op
  | usize : Nat → Op
  | i8 : Int → Op
  | i16 : Int → Op
  | i32 : Int → Op
  | i64 : Int → Op
  | i128 : Int → Op
  | isize : Nat → Int → Op
  | digest : Op

/-- Effect of one operation: the next sink state and the digests returned
(empty for writes, a singleton for a `finish` call). -/
def stepOp {σ : Type} (S : Sink σ) (e : Endian) (s : σ) : Op → σ × List Nat
  | .raw b => (DeterministicHasher.write S s b, [])
  | .u8 i => (DeterministicHasher.write_u8 S e s i, [])
  | .u16 i => (DeterministicHasher.write_u16 S e s i, [])
  | .u32 i => (DeterministicHasher.write_u32 S e s i, [])
  | .u64 i => (DeterministicHasher.write_u64 S e s i, [])
  | .u128 i => (DeterministicHasher.write_u128 S e s i, [])
  | .usize i => (DeterministicHasher.write_usize S e s i, [])
  | .i8 v => (DeterministicHasher.write_i8 S e s v, [])
  | .i16 v => (DeterministicHasher.write_i16 S e s v, [])
  | .i32 v => (DeterministicHasher.write_i32 S e s v, [])
  | .i64 v => (DeterministicHasher.write_i64 S e s v, [])
  | .i128 v => (DeterministicHasher.write_i128 S e s v, [])
  | .isize W v => (DeterministicHasher.write_isize S e W s v, [])
  | .digest => (s, [DeterministicHasher.finish S s])

/-- Run a sequence of operations, returning the final sink state and the
list of all digests read along the way. -/
def runOps {σ : Type} (S : Sink σ) (e : Endian) (s : σ) : List Op → σ × List Nat
  | [] => (s, [])
  | op :: rest =>
    ((runOps S e (stepOp S e s op).1 rest).1,
     (stepOp S e s op).2 ++ (runOps S e (stepOp S e s op).1 rest).2)

/- ### Basic lemmas about the byte encoders -/

theorem leBytes_length (w n : Nat) : (leBytes w n).length = w := by
  induction w generalizing n with
  | zero => rfl
  | succ w ih => simp [leBytes, ih]

theorem to_le_bytes_eq (e : Endian) (w n : Nat) :
    to_le_bytes e w n = leBytes w n := by
  cases e <;> simp [to_le_bytes, nativeBytes]

theorem to_le_bytes_length (e : Endian) (w n : Nat) :
    (to_le_bytes e w n).length = w := by
  rw [to_le_bytes_eq, leBytes_length]

theorem leBytes_zero (w : Nat) : leBytes w 0 = List.replicate w 0 := by
  induction w with
  | zero => rfl
  | succ w ih => simp [leBytes, ih, List.replicate_succ]

theorem leBytes_split (k m n : Nat) :
    leBytes (k + m) n = leBytes k n ++ leBytes m (n / 256 ^ k) := by
  induction k generalizing n with
  | zero => simp [leBytes]
  | succ k ih =>
    have hrw : k + 1 + m = (k + m) + 1 := by omega
    rw [hrw]
    simp only [leBytes, ih (n / 256), List.cons_append]
    have hd : n / 256 / 256 ^ k = n / 256 ^ (k + 1) := by
      rw [Nat.div_div_eq_div_mul, pow_succ, mul_comm (256 ^ k) 256]
    rw [hd]

theorem leBytes_zero_extend (k m n : Nat) (h : n < 256 ^ k) :
    leBytes (k + m) n = leBytes k n ++ List.replicate m 0 := by
  rw [leBytes_split, Nat.div_eq_of_lt h, leBytes_zero]

theorem asUnsigned_eq_twosComplement (w : Nat) (v : Int)
    (h1 : -((2 : Int) ^ w) ≤ v) (h2 : v < (2 : Int) ^ w) :
    asUnsigned w v = twosComplement w v := by
  unfold asUnsigned twosComplement
  by_cases h : 0 ≤ v
  · rw [if_pos h, Int.emod_eq_of_lt h h2]
  · rw [if_neg h]
    have hmod : v % ((2 : Int) ^ w) = (2 : Int) ^ w + v := by
      have h3 : (0 : Int) ≤ (2 : Int) ^ w + v := by omega
      have h4 : (2 : Int) ^ w + v < (2 : Int) ^ w := by omega
      have h5 := Int.add_mul_emod_self_left (a := v) (b := (2 : Int) ^ w) (c := 1)
      rw [mul_one, add_comm] at h5
      calc v % ((2 : Int) ^ w) = ((2 : Int) ^ w + v) % ((2 : Int) ^ w) := h5.symm
        _ = (2 : Int) ^ w + v := Int.emod_eq_of_lt h3 h4
    rw [hmod]

theorem runOps_append {σ : Type} (S : Sink σ) (e : Endian) (s : σ)
    (l1 l2 : List Op) :
    runOps S e s (l1 ++ l2)
      = ((runOps S e (runOps S e s l1).1 l2).1,
         (runOps S e s l1).2 ++ (runOps S e (runOps S e s l1).1 l2).2) := by
  induction l1 generalizing s with
  | nil => simp [runOps]
  | cons op rest ih => simp [runOps, ih, List.append_assoc]

/- ### Claim theorems -/

/-- Claim C5: for every byte sequence, `write` (write_raw_bytes) forwards
exactly that sequence to the inner sink, unchanged, as one call: same
bytes, same order, nothing added, dropped or transformed. -/
theorem write_raw_bytes_passthrough {σ : Type} (S : Sink σ) (s : σ)
    (tr : List (List Nat)) (bytes : List Nat) :
    DeterministicHasher.write S s bytes = S.write s bytes ∧
    DeterministicHasher.write traceSink tr bytes = tr ++ [bytes] :=
  ⟨rfl, rfl⟩

/-- Claim C10: on a 64-bit platform (usize values below `2^64`),
`write_usize` forwards exactly the same bytes as `write_u64` applied to the
same value. -/
theorem write_usize_eq_write_u64 {σ : Type} (S : Sink σ) (e : Endian)
    (s : σ) (i : Nat) (h : i < 2 ^ 64) :
    DeterministicHasher.write_usize S e s i
      = DeterministicHasher.write_u64 S e s i := by
  unfold DeterministicHasher.write_usize DeterministicHasher.write_u64
  rw [Nat.mod_eq_of_lt h]

theorem write_usize_eq_write_u64_witness :
    0x1337 < 2 ^ 64 ∧
    DeterministicHasher.write_usize traceSink Endian.little [] 0x1337
      = DeterministicHasher.write_u64 traceSink Endian.little [] 0x1337 :=
  ⟨by decide,
    write_usize_eq_write_u64 traceSink Endian.little [] 0x1337 (by decide)⟩

/-- Claim C2 is refuted by the code at a concrete input: `write_isize`
applied to the logical value `-1` forwards `ff ff 00 00 00 00 00 00` on a
simulated 16-bit pointer-width platform but `ff ff ff ff ff ff ff ff` on a
simulated 64-bit one, because the cast chain `i as usize as u64`
zero-extends the narrow two's-complement pattern instead of
sign-extending it. -/
theorem write_isize_cross_width_divergence :
    DeterministicHasher.write_isize traceSink Endian.little 16 [] (-1)
      = [[255, 255, 0, 0, 0, 0, 0, 0]] ∧
    DeterministicHasher.write_isize traceSink Endian.little 64 [] (-1)
      = [[255, 255, 255, 255, 255, 255, 255, 255]] ∧
    DeterministicHasher.write_isize traceSink Endian.little 16 [] (-1)
      ≠ DeterministicHasher.write_isize traceSink Endian.little 64 [] (-1) :=
  ⟨by decide, by decide, by decide⟩

/-- Claim C6: writing the platform-native unsigned value `0x1337` through
the normalizer forwards exactly the eight bytes
`37 13 00 00 00 00 00 00` to the inner sink, so for any inner sink
(e.g. a 32-bit CRC) the resulting digest equals the digest obtained by
writing those eight raw bytes directly into the same sink. -/
theorem write_usize_hex1337_example {σ : Type} (S : Sink σ) (e : Endian)
    (s : σ) :
    DeterministicHasher.write_usize S e s 0x1337
      = DeterministicHasher.write S s [0x37, 0x13, 0, 0, 0, 0, 0, 0] ∧
    DeterministicHasher.write_usize traceSink e [] 0x1337
      = [[0x37, 0x13, 0, 0, 0, 0, 0, 0]] ∧
    DeterministicHasher.finish S (DeterministicHasher.write_usize S e s 0x1337)
      = DeterministicHasher.finish S
          (DeterministicHasher.write S s [0x37, 0x13, 0, 0, 0, 0, 0, 0]) := by
  have hb : to_le_bytes e 8 (0x1337 % 2 ^ 64) = [0x37, 0x13, 0, 0, 0, 0, 0, 0] := by
    rw [to_le_bytes_eq]
    decide
  unfold DeterministicHasher.write_usize
  rw [hb]
  exact ⟨rfl, rfl, rfl⟩

/-- Claim C8: chaining two normalizers has no additional effect: every
operation of a normalizer wrapping a normalizer wrapping sink `S` has
exactly the same effect on `S` (and returns the same digest) as a single
normalizer wrapping `S`. -/
theorem chained_normalizer_idempotent {σ : Type} (S : Sink σ) (e : Endian)
    (s : σ) (b : List Nat) (i : Nat) (v : Int) (W : Nat) :
    DeterministicHasher.write (DeterministicHasher.toSink S) s b
      = DeterministicHasher.write S s b ∧
    DeterministicHasher.write_u8 (DeterministicHasher.toSink S) e s i
      = DeterministicHasher.write_u8 S e s i ∧
    DeterministicHasher.write_u16 (DeterministicHasher.toSink S) e s i
      = DeterministicHasher.write_u16 S e s i ∧
    DeterministicHasher.write_u32 (DeterministicHasher.toSink S) e s i
      = DeterministicHasher.write_u32 S e s i ∧
    DeterministicHasher.write_u64 (DeterministicHasher.toSink S) e s i
      = DeterministicHasher.write_u64 S e s i ∧
    DeterministicHasher.write_u128 (DeterministicHasher.toSink S) e s i
      = DeterministicHasher.write_u128 S e s i ∧
    DeterministicHasher.write_usize (DeterministicHasher.toSink S) e s i
      = DeterministicHasher.write_usize S e s i ∧
    DeterministicHasher.write_i8 (DeterministicHasher.toSink S) e s v
      = DeterministicHasher.write_i8 S e s v ∧
    DeterministicHasher.write_i16 (DeterministicHasher.toSink S) e s v
      = DeterministicHasher.write_i16 S e s v ∧
    DeterministicHasher.write_i32 (DeterministicHasher.toSink S) e s v
      = DeterministicHasher.write_i32 S e s v ∧
    DeterministicHasher.write_i64 (DeterministicHasher.toSink S) e s v
      = DeterministicHasher.write_i64 S e s v ∧
    DeterministicHasher.write_i128 (DeterministicHasher.toSink S) e s v
      = DeterministicHasher.write_i128 S e s v ∧
    DeterministicHasher.write_isize (DeterministicHasher.toSink S) e W s v
      = DeterministicHasher.write_isize S e W s v ∧
    DeterministicHasher.finish (DeterministicHasher.toSink S) s
      = DeterministicHasher.finish S s :=
  ⟨rfl, rfl, rfl, rfl, rfl, rfl, rfl, rfl, rfl, rfl, rfl, rfl, rfl, rfl⟩

/-- Claim C1: for each fixed width in {8,16,32,64,128} bits and each
unsigned value of that width, the corresponding write operation forwards to
the inner sink, in one call, exactly the little-endian byte encoding of the
value of exactly width/8 bytes, identically on a simulated big-endian and
on a simulated little-endian architecture. -/
theorem write_unsigned_canonical {σ : Type} (S : Sink σ) (s : σ)
    (a b c d f : Nat)
    (ha : a < 2 ^ 8) (hb : b < 2 ^ 16) (hc : c < 2 ^ 32)
    (hd : d < 2 ^ 64) (hf : f < 2 ^ 128) :
    (DeterministicHasher.write_u8 S Endian.big s a = S.write s (leBytes 1 a) ∧
      DeterministicHasher.write_u8 S Endian.little s a = S.write s (leBytes 1 a) ∧
      (leBytes 1 a).length = 1) ∧
    (DeterministicHasher.write_u16 S Endian.big s b = S.write s (leBytes 2 b) ∧
      DeterministicHasher.write_u16 S Endian.little s b = S.write s (leBytes 2 b) ∧
      (leBytes 2 b).length = 2) ∧
    (DeterministicHasher.write_u32 S Endian.big s c = S.write s (leBytes 4 c) ∧
      DeterministicHasher.write_u32 S Endian.little s c = S.write s (leBytes 4 c) ∧
      (leBytes 4 c).length = 4) ∧
    (DeterministicHasher.write_u64 S Endian.big s d = S.write s (leBytes 8 d) ∧
      DeterministicHasher.write_u64 S Endian.little s d = S.write s (leBytes 8 d) ∧
      (leBytes 8 d).length = 8) ∧
    (DeterministicHasher.write_u128 S Endian.big s f = S.write s (leBytes 16 f) ∧
      DeterministicHasher.write_u128 S Endian.little s f = S.write s (leBytes 16 f) ∧
      (leBytes 16 f).length = 16) := by
  refine ⟨⟨?_, ?_, ?_⟩, ⟨?_, ?_, ?_⟩, ⟨?_, ?_, ?_⟩, ⟨?_, ?_, ?_⟩, ⟨?_, ?_, ?_⟩⟩ <;>
    simp [DeterministicHasher.write_u8, DeterministicHasher.write_u16,
      DeterministicHasher.write_u32, DeterministicHasher.write_u64,
      DeterministicHasher.write_u128, DeterministicHasher.write,
      to_le_bytes_eq, leBytes_length]

theorem write_unsigned_canonical_witness :
    (255 < 2 ^ 8 ∧ 0xBEEF < 2 ^ 16 ∧ 0xDEADBEEF < 2 ^ 32 ∧
      0x123456789ABCDEF0 < 2 ^ 64 ∧
      0xFFFFFFFFFFFFFFFFFFFFFFFFFFFFFFFF < 2 ^ 128) ∧
    ((DeterministicHasher.write_u8 traceSink Endian.big [] 255
        = traceSink.write [] (leBytes 1 255) ∧
      DeterministicHasher.write_u8 traceSink Endian.little [] 255
        = traceSink.write [] (leBytes 1 255) ∧
      (leBytes 1 255).length = 1) ∧
    (DeterministicHasher.write_u16 traceSink Endian.big [] 0xBEEF
        = traceSink.write [] (leBytes 2 0xBEEF) ∧
      DeterministicHasher.write_u16 traceSink Endian.little [] 0xBEEF
        = traceSink.write [] (leBytes 2 0xBEEF) ∧
      (leBytes 2 0xBEEF).length = 2) ∧
    (DeterministicHasher.write_u32 traceSink Endian.big [] 0xDEADBEEF
        = traceSink.write [] (leBytes 4 0xDEADBEEF) ∧
      DeterministicHasher.write_u32 traceSink Endian.little [] 0xDEADBEEF
        = traceSink.write [] (leBytes 4 0xDEADBEEF) ∧
      (leBytes 4 0xDEADBEEF).length = 4) ∧
    (DeterministicHasher.write_u64 traceSink Endian.big [] 0x123456789ABCDEF0
        = traceSink.write [] (leBytes 8 0x123456789ABCDEF0) ∧
      DeterministicHasher.write_u64 traceSink Endian.little [] 0x123456789ABCDEF0
        = traceSink.write [] (leBytes 8 0x123456789ABCDEF0) ∧
      (leBytes 8 0x123456789ABCDEF0).length = 8) ∧
    (DeterministicHasher.write_u128 traceSink Endian.big []
          0xFFFFFFFFFFFFFFFFFFFFFFFFFFFFFFFF
        = traceSink.write [] (leBytes 16 0xFFFFFFFFFFFFFFFFFFFFFFFFFFFFFFFF) ∧
      DeterministicHasher.write_u128 traceSink Endian.little []
          0xFFFFFFFFFFFFFFFFFFFFFFFFFFFFFFFF
        = traceSink.write [] (leBytes 16 0xFFFFFFFFFFFFFFFFFFFFFFFFFFFFFFFF) ∧
      (leBytes 16 0xFFFFFFFFFFFFFFFFFFFFFFFFFFFFFFFF).length = 16)) :=
  ⟨⟨by decide, by decide, by decide, by decide, by decide⟩,
    write_unsigned_canonical traceSink [] 255 0xBEEF 0xDEADBEEF
      0x123456789ABCDEF0 0xFFFFFFFFFFFFFFFFFFFFFFFFFFFFFFFF
      (by decide) (by decide) (by decide) (by decide) (by decide)⟩

/-- Claim C3: for every platform-native unsigned value at a simulated
native width of 16, 32 or 64 bits, `write_usize` forwards, in one call,
exactly 8 bytes: the little-endian encoding of the value widened to 64
bits, i.e. the native-width little-endian encoding zero-extended with
trailing zero bytes when the native width is narrower than 64 bits. -/
theorem write_usize_canonical_8_bytes {σ : Type} (S : Sink σ) (e : Endian)
    (s : σ) (W i : Nat) (hW : W = 16 ∨ W = 32 ∨ W = 64) (hi : i < 2 ^ W) :
    DeterministicHasher.write_usize S e s i = S.write s (leBytes 8 i) ∧
    (leBytes 8 i).length = 8 ∧
    leBytes 8 i = leBytes (W / 8) i ++ List.replicate (8 - W / 8) 0 := by
  have hi64 : i < 2 ^ 64 := by
    rcases hW with h | h | h <;> subst h <;> exact lt_of_lt_of_le hi (by norm_num)
  refine ⟨?_, leBytes_length 8 i, ?_⟩
  · unfold DeterministicHasher.write_usize DeterministicHasher.write
    rw [to_le_bytes_eq, Nat.mod_eq_of_lt hi64]
  · rcases hW with h | h | h <;> subst h
    · simpa using leBytes_zero_extend 2 6 i (by simpa using hi)
    · simpa using leBytes_zero_extend 4 4 i (by simpa using hi)
    · simp

theorem write_usize_canonical_8_bytes_witness :
    ((16 = 16 ∨ 16 = 32 ∨ 16 = 64) ∧ 0x1337 < 2 ^ 16) ∧
    (DeterministicHasher.write_usize traceSink Endian.big [] 0x1337
        = traceSink.write [] (leBytes 8 0x1337) ∧
      (leBytes 8 0x1337).length = 8 ∧
      leBytes 8 0x1337
        = leBytes (16 / 8) 0x1337 ++ List.replicate (8 - 16 / 8) 0) :=
  ⟨⟨Or.inl rfl, by decide⟩,
    write_usize_canonical_8_bytes traceSink Endian.big [] 16 0x1337
      (Or.inl rfl) (by decide)⟩

/-- Claim C4: for every signed value of width W in {8,16,32,64,128} bits,
the bytes forwarded by the signed write equal the bytes forwarded by the
unsigned write of the same width applied to the two's-complement
reinterpretation of the value; in particular signed 8-bit `-1` forwards the
same single byte `[0xFF]` as unsigned 8-bit `255`. -/
theorem write_signed_bit_pattern {σ : Type} (S : Sink σ) (e : Endian)
    (s : σ) (v1 v2 v3 v4 v5 : Int)
    (h1l : -(2 ^ 7 : Int) ≤ v1) (h1r : v1 < 2 ^ 7)
    (h2l : -(2 ^ 15 : Int) ≤ v2) (h2r : v2 < 2 ^ 15)
    (h3l : -(2 ^ 31 : Int) ≤ v3) (h3r : v3 < 2 ^ 31)
    (h4l : -(2 ^ 63 : Int) ≤ v4) (h4r : v4 < 2 ^ 63)
    (h5l : -(2 ^ 127 : Int) ≤ v5) (h5r : v5 < 2 ^ 127) :
    DeterministicHasher.write_i8 S e s v1
      = DeterministicHasher.write_u8 S e s (twosComplement 8 v1) ∧
    DeterministicHasher.write_i16 S e s v2
      = DeterministicHasher.write_u16 S e s (twosComplement 16 v2) ∧
    DeterministicHasher.write_i32 S e s v3
      = DeterministicHasher.write_u32 S e s (twosComplement 32 v3) ∧
    DeterministicHasher.write_i64 S e s v4
      = DeterministicHasher.write_u64 S e s (twosComplement 64 v4) ∧
    DeterministicHasher.write_i128 S e s v5
      = DeterministicHasher.write_u128 S e s (twosComplement 128 v5) ∧
    DeterministicHasher.write_i8 S e s (-1)
      = DeterministicHasher.write_u8 S e s 255 ∧
    DeterministicHasher.write_u8 S e s 255
      = DeterministicHasher.write S s [255] := by
  refine ⟨?_, ?_, ?_, ?_, ?_, ?_, ?_⟩
  · unfold DeterministicHasher.write_i8
    rw [asUnsigned_eq_twosComplement 8 v1 (le_trans (by norm_num) h1l)
      (lt_trans h1r (by norm_num))]
  · unfold DeterministicHasher.write_i16
    rw [asUnsigned_eq_twosComplement 16 v2 (le_trans (by norm_num) h2l)
      (lt_trans h2r (by norm_num))]
  · unfold DeterministicHasher.write_i32
    rw [asUnsigned_eq_twosComplement 32 v3 (le_trans (by norm_num) h3l)
      (lt_trans h3r (by norm_num))]
  · unfold DeterministicHasher.write_i64
    rw [asUnsigned_eq_twosComplement 64 v4 (le_trans (by norm_num) h4l)
      (lt_trans h4r (by norm_num))]
  · unfold DeterministicHasher.write_i128
    rw [asUnsigned_eq_twosComplement 128 v5 (le_trans (by norm_num) h5l)
      (lt_trans h5r (by norm_num))]
  · unfold DeterministicHasher.write_i8
    rw [show asUnsigned 8 (-1) = 255 from by decide]
  · unfold DeterministicHasher.write_u8
    rw [to_le_bytes_eq]
    rw [show leBytes 1 255 = [255] from by decide]

theorem write_signed_bit_pattern_witness :
    ((-(2 ^ 7 : Int) ≤ -1 ∧ (-1 : Int) < 2 ^ 7) ∧
      (-(2 ^ 15 : Int) ≤ -1 ∧ (-1 : Int) < 2 ^ 15) ∧
      (-(2 ^ 31 : Int) ≤ -1 ∧ (-1 : Int) < 2 ^ 31) ∧
      (-(2 ^ 63 : Int) ≤ -1 ∧ (-1 : Int) < 2 ^ 63) ∧
      (-(2 ^ 127 : Int) ≤ -1 ∧ (-1 : Int) < 2 ^ 127)) ∧
    (DeterministicHasher.write_i8 traceSink Endian.little [] (-1)
        = DeterministicHasher.write_u8 traceSink Endian.little []
            (twosComplement 8 (-1)) ∧
      DeterministicHasher.write_i16 traceSink Endian.little [] (-1)
        = DeterministicHasher.write_u16 traceSink Endian.little []
            (twosComplement 16 (-1)) ∧
      DeterministicHasher.write_i32 traceSink Endian.little [] (-1)
        = DeterministicHasher.write_u32 traceSink Endian.little []
            (twosComplement 32 (-1)) ∧
      DeterministicHasher.write_i64 traceSink Endian.little [] (-1)
        = DeterministicHasher.write_u64 traceSink Endian.little []
            (twosComplement 64 (-1)) ∧
      DeterministicHasher.write_i128 traceSink Endian.little [] (-1)
        = DeterministicHasher.write_u128 traceSink Endian.little []
            (twosComplement 128 (-1)) ∧
      DeterministicHasher.write_i8 traceSink Endian.little [] (-1)
        = DeterministicHasher.write_u8 traceSink Endian.little [] 255 ∧
      DeterministicHasher.write_u8 traceSink Endian.little [] 255
        = DeterministicHasher.write traceSink [] [255]) :=
  ⟨⟨⟨by decide, by decide⟩, ⟨by decide, by decide⟩, ⟨by decide, by decide⟩,
      ⟨by decide, by decide⟩, ⟨by decide, by decide⟩⟩,
    write_signed_bit_pattern traceSink Endian.little [] (-1) (-1) (-1) (-1) (-1)
      (by decide) (by decide) (by decide) (by decide) (by decide)
      (by decide) (by decide) (by decide) (by decide) (by decide)⟩

/-- Claim C9: every typed primitive write results in exactly one call to
the inner sink's raw-byte write (witnessed on the free sink that records
each call), passing one contiguous slice whose length is the canonical
width in bytes: width/8 for the fixed widths and 8 for the platform-width
values. -/
theorem typed_write_single_call (e : Endian) (tr : List (List Nat))
    (i : Nat) (v : Int) (W : Nat) :
    (DeterministicHasher.write_u8 traceSink e tr i
        = tr ++ [to_le_bytes e 1 i] ∧ (to_le_bytes e 1 i).length = 1) ∧
    (DeterministicHasher.write_u16 traceSink e tr i
        = tr ++ [to_le_bytes e 2 i] ∧ (to_le_bytes e 2 i).length = 2) ∧
    (DeterministicHasher.write_u32 traceSink e tr i
        = tr ++ [to_le_bytes e 4 i] ∧ (to_le_bytes e 4 i).length = 4) ∧
    (DeterministicHasher.write_u64 traceSink e tr i
        = tr ++ [to_le_bytes e 8 i] ∧ (to_le_bytes e 8 i).length = 8) ∧
    (DeterministicHasher.write_u128 traceSink e tr i
        = tr ++ [to_le_bytes e 16 i] ∧ (to_le_bytes e 16 i).length = 16) ∧
    (DeterministicHasher.write_usize traceSink e tr i
        = tr ++ [to_le_bytes e 8 (i % 2 ^ 64)] ∧
      (to_le_bytes e 8 (i % 2 ^ 64)).length = 8) ∧
    (DeterministicHasher.write_i8 traceSink e tr v
        = tr ++ [to_le_bytes e 1 (asUnsigned 8 v)] ∧
      (to_le_bytes e 1 (asUnsigned 8 v)).length = 1) ∧
    (DeterministicHasher.write_i16 traceSink e tr v
        = tr ++ [to_le_bytes e 2 (asUnsigned 16 v)] ∧
      (to_le_bytes e 2 (asUnsigned 16 v)).length = 2) ∧
    (DeterministicHasher.write_i32 traceSink e tr v
        = tr ++ [to_le_bytes e 4 (asUnsigned 32 v)] ∧
      (to_le_bytes e 4 (asUnsigned 32 v)).length = 4) ∧
    (DeterministicHasher.write_i64 traceSink e tr v
        = tr ++ [to_le_bytes e 8 (asUnsigned 64 v)] ∧
      (to_le_bytes e 8 (asUnsigned 64 v)).length = 8) ∧
    (DeterministicHasher.write_i128 traceSink e tr v
        = tr ++ [to_le_bytes e 16 (asUnsigned 128 v)] ∧
      (to_le_bytes e 16 (asUnsigned 128 v)).length = 16) ∧
    (DeterministicHasher.write_isize traceSink e W tr v
        = tr ++ [to_le_bytes e 8 (asUnsigned W v % 2 ^ 64)] ∧
      (to_le_bytes e 8 (asUnsigned W v % 2 ^ 64)).length = 8) :=
  ⟨⟨rfl, to_le_bytes_length e 1 i⟩, ⟨rfl, to_le_bytes_length e 2 i⟩,
    ⟨rfl, to_le_bytes_length e 4 i⟩, ⟨rfl, to_le_bytes_length e 8 i⟩,
    ⟨rfl, to_le_bytes_length e 16 i⟩, ⟨rfl, to_le_bytes_length e 8 _⟩,
    ⟨rfl, to_le_bytes_length e 1 _⟩, ⟨rfl, to_le_bytes_length e 2 _⟩,
    ⟨rfl, to_le_bytes_length e 4 _⟩, ⟨rfl, to_le_bytes_length e 8 _⟩,
    ⟨rfl, to_le_bytes_length e 16 _⟩, ⟨rfl, to_le_bytes_length e 8 _⟩⟩

/-- Claim C7: the normalizer's `finish` returns the inner sink's current
digest without mutating any state (the inner digest read is pure by the
sink model, mirroring Rust's `finish(&self)`): inserting a digest read
anywhere in an operation sequence leaves the final state unchanged — so
writes may legally resume after it and no call sequence is invalid — and
two consecutive digest reads with no intervening writes return the same
value. -/
theorem finish_idempotent_no_mutation {σ : Type} (S : Sink σ) (e : Endian)
    (s : σ) (pre post : List Op) :
    DeterministicHasher.finish S s = S.finish s ∧
    (runOps S e s (pre ++ Op.digest :: post)).1
      = (runOps S e s (pre ++ post)).1 ∧
    (runOps S e s (pre ++ [Op.digest, Op.digest])).2
      = (runOps S e s pre).2
          ++ [DeterministicHasher.finish S (runOps S e s pre).1,
              DeterministicHasher.finish S (runOps S e s pre).1] := by
  refine ⟨rfl, ?_, ?_⟩
  · rw [runOps_append, runOps_append]
    simp [runOps, stepOp]
  · rw [runOps_append]
    simp [runOps, stepOp]
